import Mathlib

/-!
Verification development for the TSZ reader iterator
(`src/encoding/tsz/iterator.go` of the m3 repository).

The Go iterator is shallowly embedded: the mutable `readerIterator`
struct becomes the Lean structure `IterState`, and every method of the
iterator becomes a Lean function `IterState → α × IterState` (or
`IterState → IterState` for methods without a return value).  Machine
integers are modelled as `Nat`/`Int` with explicit `% 2 ^ 64` wrapping
where Go's `uint64`/`int64` overflow semantics matter.  The underlying
bit stream (`istream`, a separate file of the repository that is not
part of the given sources) is modelled from the spec as an explicit
list of booleans, MSB-first.
-/

namespace Tsz

/-! ## Bit-stream utilities -/

/-- Value of an MSB-first list of bits. -/
def bitsToNat : List Bool → Nat
  | [] => 0
  | b :: rest => b.toNat * 2 ^ rest.length + bitsToNat rest

/-- The low `w` bits of `n`, MSB-first (encoding helper used to build
concrete input streams for the examples). -/
def natToBits : Nat → Nat → List Bool
  | 0, _ => []
  | w + 1, n => (n / 2 ^ w % 2 == 1) :: natToBits w n

/-- Split a bit list into `n` bytes (8 bits each, MSB-first). -/
def toBytes : Nat → List Bool → List Nat
  | 0, _ => []
  | n + 1, bs => bitsToNat (bs.take 8) :: toBytes n (bs.drop 8)

/-! ## Errors

The Go code stores errors as `error` values built with `fmt.Errorf`;
the distinct error conditions are modelled as constructors. -/

inductive DecodeError where
  /-- `istream` ran out of bits inside a field (io.EOF / unexpected EOF). -/
  | unexpectedEof : DecodeError
  /-- "time encoding scheme for time unit %v doesn't exist" -/
  | schemeMissing : Nat → DecodeError
  /-- "unexpected annotation length %d" -/
  | invalidAnnLength : Int → DecodeError
  /-- `xtime.Unit.Value()` failed for an invalid unit. -/
  | invalidTimeUnit : Nat → DecodeError
  /-- `binary.ReadVarint` overflow. -/
  | varintOverflow : DecodeError
  deriving Repr, DecidableEq

/-! ## Schemes (options data)

`TimeEncodingScheme`, `MarkerEncodingScheme` and the options bundle are
immutable data defined in a file of the repository that is not part of
the given sources; their shapes are modelled from the spec
(section "Data model"). -/

structure Bucket where
  opcode : Nat
  numValueBits : Nat
  deriving Repr, DecidableEq

structure TimeEncodingScheme where
  zeroBucket : Bucket
  buckets : List Bucket
  defaultBucket : Bucket
  deriving Repr, DecidableEq

/-- Modelled from the spec: marker encoding scheme
`{ opcode_bits, value_bits, opcode, EndOfStream, Annotation, TimeUnit }`.
The three marker values are named `endOfStream`, `annMarker` and
`timeUnitMarker` here. -/
structure MarkerEncodingScheme where
  numOpcodeBits : Nat
  numValueBits : Nat
  opcode : Nat
  endOfStream : Nat
  annMarker : Nat
  timeUnitMarker : Nat
  deriving Repr, DecidableEq

/-- Modelled from the spec: the options bundle.  `tess` is the mapping
from time-unit code to the time encoding scheme for that unit;
`initialTimeUnitFn` is the "initial time unit" policy used by
`readFirstTimestamp` (a function of the first instant and the default
unit; its exact definition lives in a file outside the given sources,
so it is kept as an opaque-to-the-claims parameter of the model). -/
structure Options where
  tess : Nat → Option TimeEncodingScheme
  mes : MarkerEncodingScheme
  defaultTimeUnit : Nat
  initialTimeUnitFn : Int → Nat → Nat

/-! ## Time units

Modelled from the spec: `xtime.Unit` (a file of the repository outside
the given sources) is an enumeration of duration granularities encoded
as a byte, with a sentinel "none"; each valid unit has a positive
nanosecond value.  The concrete code numbering is a modelling choice
(0 = none, 1 = second, 2 = millisecond, 3 = microsecond,
4 = nanosecond, 5 = minute, 6 = hour); the claims depend only on
validity and on the positive values. -/

def unitIsValid (u : Nat) : Bool := 1 ≤ u && u ≤ 6

def unitValue (u : Nat) : Option Int :=
  match u with
  | 1 => some 1000000000
  | 2 => some 1000000
  | 3 => some 1000
  | 4 => some 1
  | 5 => some 60000000000
  | 6 => some 3600000000000
  | _ => none

/-- The code of `xtime.None`, the zero value of `xtime.Unit`. -/
def unitNone : Nat := 0

/-! ## Machine-integer helpers -/

/-- Wrap an integer to Go `int64` two's-complement semantics. -/
def i64 (x : Int) : Int := (x + 2 ^ 63) % 2 ^ 64 - 2 ^ 63

/-- Modelled from the spec: sign extension (`signExtend` lives in the
encoder file, outside the given sources): treat `v` as the low `n` bits
of a two's-complement integer and replicate bit `n - 1` upward. -/
def signExtend (v : Nat) (n : Nat) : Int :=
  if n = 0 then 0
  else if 2 ^ (n - 1) ≤ v % 2 ^ n then (v % 2 ^ n : Int) - 2 ^ n
  else (v % 2 ^ n : Int)

/-- Go `x << uint(k)` on `uint64` for an `int` shift count `k`: a
negative count converts to a huge unsigned count and, like any count
of 64 or more, yields 0; otherwise the shift wraps modulo `2 ^ 64`. -/
def shlUint64 (x : Nat) (k : Int) : Nat :=
  if k < 0 then 0 else x <<< k.toNat % 2 ^ 64

/-- Modelled from the spec: leading zeros of the 64-bit XOR word
(the helper lives in the encoder file, outside the given sources). -/
def leadingZeros64 (x : Nat) : Nat :=
  64 - (if x = 0 then 0 else Nat.log2 x + 1)

def trailingZeros64Aux : Nat → Nat → Nat
  | 0, _ => 0
  | fuel + 1, x => if x % 2 = 1 then 0 else 1 + trailingZeros64Aux fuel (x / 2)

/-- Modelled from the spec: trailing zeros of the 64-bit XOR word
(64 when the word is zero). -/
def trailingZeros64 (x : Nat) : Nat := trailingZeros64Aux 64 (x % 2 ^ 64)

/-- Modelled from the spec: the three value-branch opcodes are
`'0'` (zero XOR), `'10'` (contained window), `'11'` (new window);
the constants live in a file outside the given sources. -/
def opcodeZeroValueXOR : Nat := 0

def opcodeContainedValueXOR : Nat := 2

/-- Go `time.Time{}` (the `IsZero` sentinel) in nanoseconds since the
Unix epoch: January 1 of year 1 UTC.  A first timestamp read from the
wire is a 64-bit signed nanosecond count and can never equal this
value, matching Go where `FromNormalizedTime` of any `int64` is not
the zero time. -/
def timeZero : Int := -62135596800000000000

/-! ## The istream (bit reader)

Modelled from the spec (section "BitReader"): the underlying `istream`
file of the repository is not part of the given sources.  The stream
state is the list of remaining bits, MSB-first.  `read_bits(n)` fails
with `UnexpectedEof` when fewer than `n` bits remain and otherwise
advances; `peek_bits(n)` performs the same check without advancing. -/

def istreamReadBits (n : Nat) (st : List Bool) : Nat × List Bool × Option DecodeError :=
  if n ≤ st.length then (bitsToNat (st.take n), st.drop n, none)
  else (0, st, some .unexpectedEof)

def istreamPeekBits (n : Nat) (st : List Bool) : Option Nat :=
  if n ≤ st.length then some (bitsToNat (st.take n)) else none

/-- Modelled from the spec: `binary.ReadUvarint` (Go standard library):
little-endian 7-bit groups with a continuation bit, at most 10 bytes.
Returns the accumulated value, the remaining bits and an error. -/
def readUvarintAux : Nat → Nat → Nat → List Bool → Nat × List Bool × Option DecodeError
  | 0, _, x, st => (x, st, some .varintOverflow)
  | fuel + 1, shift, x, st =>
    if 8 ≤ st.length then
      let b := bitsToNat (st.take 8)
      let st1 := st.drop 8
      if b < 128 then
        if fuel = 0 ∧ 1 < b then (x, st1, some .varintOverflow)
        else ((x ||| b <<< shift) % 2 ^ 64, st1, none)
      else readUvarintAux fuel (shift + 7) ((x ||| (b % 128) <<< shift) % 2 ^ 64) st1
    else (x, st, some .unexpectedEof)

/-- ZigZag decoding, the second half of `binary.ReadVarint`. -/
def zigzagDecode (ux : Nat) : Int :=
  if ux % 2 = 1 then -(ux >>> 1 : Nat) - 1 else (ux >>> 1 : Nat)

/-- Modelled from the spec: `binary.ReadVarint` (ZigZag/varint). -/
def istreamReadVarint (st : List Bool) : Int × List Bool × Option DecodeError :=
  let r := readUvarintAux 10 0 0 st
  (zigzagDecode r.1, r.2.1, r.2.2)

/-! ## Iterator state

The mutable fields of Go's `readerIterator` (the immutable `opts`,
`tess`, `mes` fields are passed separately as `Options`). -/

structure IterState where
  /-- remaining bits of the `istream` -/
  bits : List Bool
  /-- current time, ns since epoch (`timeZero` = Go's zero time) -/
  t : Int
  /-- current time delta, ns -/
  dt : Int
  /-- current value bits (`uint64`) -/
  vb : Nat
  /-- current xor (`uint64`) -/
  xor : Nat
  /-- has reached the end -/
  done : Bool
  /-- current error -/
  err : Option DecodeError
  /-- current annotation (`nil` = `none`) -/
  ant : Option (List Nat)
  /-- current time unit code -/
  tu : Nat
  /-- whether we have a new time unit -/
  tuChanged : Bool
  closed : Bool
  deriving Repr, DecidableEq

/-- `NewReaderIterator`: a fresh iterator on a stream (all bookkeeping
fields at their Go zero values). -/
def newReaderIterator (bits : List Bool) : IterState :=
  { bits := bits, t := timeZero, dt := 0, vb := 0, xor := 0, done := false, err := none, ant := none, tu := unitNone, tuChanged := false, closed := false }

/-! ## Iterator methods -/

def hasError (s : IterState) : Bool := s.err.isSome

def isDone (s : IterState) : Bool := s.done

def isClosed (s : IterState) : Bool := s.closed

def hasNext (s : IterState) : Bool := !hasError s && !isDone s && !isClosed s

/-- `readBits`: guarded read; `res, it.err = it.is.ReadBits(numBits)`. -/
def readBits (n : Nat) (s : IterState) : Nat × IterState :=
  if hasNext s then
    let r := istreamReadBits n s.bits
    (r.1, { s with bits := r.2.1, err := r.2.2 })
  else (0, s)

/-- `readVarint`: guarded read; `res, it.err = binary.ReadVarint(it.is)`. -/
def readVarint (s : IterState) : Int × IterState :=
  if hasNext s then
    let r := istreamReadVarint s.bits
    (r.1, { s with bits := r.2.1, err := r.2.2 })
  else (0, s)

/-- `tryPeekBits`: guarded peek, consumes nothing. -/
def tryPeekBits (n : Nat) (s : IterState) : Option Nat :=
  if hasNext s then istreamPeekBits n s.bits else none

/-- `timeUnit()`: `tu, it.err = it.tu.Value()` behind a `hasError` guard. -/
def timeUnitNs (s : IterState) : Int × IterState :=
  if hasError s then (0, s)
  else
    match unitValue s.tu with
    | some v => (v, { s with err := none })
    | none => (0, { s with err := some (.invalidTimeUnit s.tu) })

/-- `readTimeUnit`: read 8 bits as a unit code; set `tuChanged` when the
code is valid and differs from the current unit; store the code
unconditionally. -/
def readTimeUnit (s : IterState) : IterState :=
  let r := readBits 8 s
  let tu := r.1
  let s1 := r.2
  let s2 := if unitIsValid tu ∧ tu ≠ s1.tu then { s1 with tuChanged := true } else s1
  { s2 with tu := tu }

/-- The byte-filling loop of `readAnnot` (Go: `for i := 0; i < antLen; i++`). -/
def readBytesLoop : Nat → IterState → List Nat × IterState
  | 0, s => ([], s)
  | n + 1, s =>
    let r := readBits 8 s
    let rest := readBytesLoop n r.2
    (r.1 :: rest.1, rest.2)

/-- `readAnnotation` in the Go source: read a varint, add 1 (a Go
`int` addition, which wraps in int64 — at varint value `2 ^ 63 - 1`
the length wraps to `-2 ^ 63`), validate, then read that many bytes
into the annotation buffer. -/
def readAnnot (s : IterState) : IterState :=
  let r := readVarint s
  let antLen : Int := i64 (r.1 + 1)
  let s1 := r.2
  if hasError s1 then s1
  else if antLen ≤ 0 then { s1 with err := some (.invalidAnnLength antLen) }
  else
    let r2 := readBytesLoop antLen.toNat s1
    { r2.2 with ant := some r2.1 }

/-- `readXOR`: the three-branch XOR decoder. -/
def readXOR (s : IterState) : Nat × IterState :=
  let r := readBits 1 s
  if r.1 = opcodeZeroValueXOR then (0, r.2)
  else
    let r1 := readBits 1 r.2
    let cb := r.1 * 2 + r1.1
    if cb = opcodeContainedValueXOR then
      let pl := leadingZeros64 r1.2.xor
      let pt := trailingZeros64 r1.2.xor
      let nm : Int := 64 - pl - pt
      let r2 := readBits nm.toNat r1.2
      (r2.1 <<< pt % 2 ^ 64, r2.2)
    else
      let rl := readBits 6 r1.2
      let rm := readBits 6 rl.2
      let nm := rm.1 + 1
      let ntz : Int := 64 - rl.1 - nm
      let r2 := readBits nm rm.2
      (shlUint64 r2.1 ntz, r2.2)

/-- `readNextValue`: `it.xor = it.readXOR(); it.vb ^= it.xor`. -/
def readNextValue (s : IterState) : IterState :=
  let r := readXOR s
  { r.2 with xor := r.1, vb := r.2.vb ^^^ r.1 }

/-- `readFirstValue`: 64 raw bits; both `vb` and `xor`. -/
def readFirstValue (s : IterState) : IterState :=
  let r := readBits 64 s
  { r.2 with vb := r.1, xor := r.1 }

/-- `readDeltaOfDelta` when no bucket in the list matched: the default
bucket, and the bucket loop itself. -/
def dodBuckets (defBucket : Bucket) : List Bucket → Nat → IterState → Int × IterState
  | [], _, s =>
    let r := readBits defBucket.numValueBits s
    let dod := signExtend r.1 defBucket.numValueBits
    let rt := timeUnitNs r.2
    (i64 (dod * rt.1), rt.2)
  | b :: rest, cb, s =>
    let r := readBits 1 s
    let cb1 := cb * 2 + r.1
    if cb1 = b.opcode then
      let rv := readBits b.numValueBits r.2
      let dod := signExtend rv.1 b.numValueBits
      let rt := timeUnitNs rv.2
      (i64 (dod * rt.1), rt.2)
    else dodBuckets defBucket rest cb1 r.2

/-- `readDeltaOfDelta`: the 64-bit nanosecond path when the time unit
changed this `Next`, otherwise the prefix-coded bucket path. -/
def readDeltaOfDelta (tes : TimeEncodingScheme) (s : IterState) : Int × IterState :=
  if s.tuChanged then
    let r := readBits 64 s
    (signExtend r.1 64, r.2)
  else
    let r := readBits 1 s
    if r.1 = tes.zeroBucket.opcode then (0, r.2)
    else dodBuckets tes.defaultBucket tes.buckets r.1 r.2

/-- The marker dispatch of `tryReadMarker` on a successfully peeked
`opcodeAndValue`: check the opcode prefix, then switch on the marker
value (EndOfStream, Annotation, TimeUnit, in the order of the Go
`switch`), consuming the marker bits only on a recognized marker. -/
def tryReadMarkerVal (o : Options) (rec : IterState → Int × IterState)
    (s : IterState) (opcodeAndValue : Nat) : (Int × Bool) × IterState :=
  if opcodeAndValue >>> o.mes.numValueBits ≠ o.mes.opcode then ((0, false), s)
  else if opcodeAndValue &&& (1 <<< o.mes.numValueBits - 1) = o.mes.endOfStream then
    ((0, true), { (readBits (o.mes.numOpcodeBits + o.mes.numValueBits) s).2 with done := true })
  else if opcodeAndValue &&& (1 <<< o.mes.numValueBits - 1) = o.mes.annMarker then
    (((rec (readAnnot (readBits (o.mes.numOpcodeBits + o.mes.numValueBits) s).2)).1, true),
      (rec (readAnnot (readBits (o.mes.numOpcodeBits + o.mes.numValueBits) s).2)).2)
  else if opcodeAndValue &&& (1 <<< o.mes.numValueBits - 1) = o.mes.timeUnitMarker then
    (((rec (readTimeUnit (readBits (o.mes.numOpcodeBits + o.mes.numValueBits) s).2)).1, true),
      (rec (readTimeUnit (readBits (o.mes.numOpcodeBits + o.mes.numValueBits) s).2)).2)
  else ((0, false), s)

/-- `tryReadMarker`, parametrized by the recursive continuation `rec`
(`readMarkerOrDeltaOfDelta`, called again after an annotation or a
time-unit marker). -/
def tryReadMarkerAux (o : Options) (rec : IterState → Int × IterState)
    (s : IterState) : (Int × Bool) × IterState :=
  match tryPeekBits (o.mes.numOpcodeBits + o.mes.numValueBits) s with
  | none => ((0, false), s)
  | some opcodeAndValue => tryReadMarkerVal o rec s opcodeAndValue

/-- `readMarkerOrDeltaOfDelta`.  The Go recursion is unbounded
syntactically but every recursive call consumes stream bits first, so
it is embedded with a fuel argument; the callers pass
`stream length + 2`, which is always sufficient. -/
def readMarkerOrDeltaOfDelta (o : Options) : Nat → IterState → Int × IterState
  | 0, s => (0, s)
  | fuel + 1, s =>
    let r := tryReadMarkerAux o (readMarkerOrDeltaOfDelta o fuel) s
    if r.1.2 then (r.1.1, r.2)
    else
      match o.tess r.2.tu with
      | none => (0, { r.2 with err := some (.schemeMissing r.2.tu) })
      | some tes => readDeltaOfDelta tes r.2

/-- `tryReadMarker` with the standard continuation. -/
def tryReadMarker (o : Options) (fuel : Nat) (s : IterState) : (Int × Bool) × IterState :=
  tryReadMarkerAux o (readMarkerOrDeltaOfDelta o fuel) s

/-- `readNextTimestamp`: `it.dt += it.readMarkerOrDeltaOfDelta(); it.t = it.t.Add(it.dt)`. -/
def readNextTimestamp (o : Options) (s : IterState) : IterState :=
  let r := readMarkerOrDeltaOfDelta o (s.bits.length + 1 + 1) s
  let s1 := { r.2 with dt := i64 (r.2.dt + r.1) }
  { s1 with t := s1.t + s1.dt }

/-- `readFirstTimestamp`: 64 raw bits of nanoseconds, initial time
unit, then a delta-of-delta, then `t = st + dt`. -/
def readFirstTimestamp (o : Options) (s : IterState) : IterState :=
  let r := readBits 64 s
  let st := signExtend r.1 64
  let s1 := { r.2 with tu := o.initialTimeUnitFn st o.defaultTimeUnit }
  let s2 := readNextTimestamp o s1
  { s2 with t := st + s2.dt }

/-- The body of `Next` between the `hasNext` guards. -/
def nextBody (o : Options) (s : IterState) : IterState :=
  if s.t = timeZero then readFirstValue (readFirstTimestamp o s)
  else readNextValue (readNextTimestamp o s)

/-- `Next`: guard, clear `ant`/`tuChanged`, decode one record, reset
`dt` on a time-unit change, report `hasNext`. -/
def next (o : Options) (s : IterState) : Bool × IterState :=
  if hasNext s then
    let s1 := nextBody o { s with ant := none, tuChanged := false }
    let s2 := if s1.tuChanged then { s1 with dt := 0 } else s1
    (hasNext s2, s2)
  else (false, s)

/-- A datapoint as surfaced by `Current`.  The Go value is
`math.Float64frombits(it.vb)`; the bit-reinterpretation is a bijection,
so the model carries the raw 64 bits. -/
structure Datapoint where
  timestamp : Int
  valueBits : Nat
  deriving Repr, DecidableEq

/-- `Current`: the datapoint, the time unit and the annotation. -/
def current (s : IterState) : Datapoint × Nat × Option (List Nat) :=
  ({ timestamp := s.t, valueBits := s.vb }, s.tu, s.ant)

/-- `Err`. -/
def errOf (s : IterState) : Option DecodeError := s.err

/-- `Reset`: rewire the stream and restore the bookkeeping fields
(note: the Go code does not touch `tuChanged`). -/
def reset (s : IterState) (bits : List Bool) : IterState :=
  { s with bits := bits, t := timeZero, dt := 0, vb := 0, xor := 0, done := false, err := none, ant := none, tu := unitNone, closed := false }

/-- `Close` (the pool hand-off is outside the model). -/
def close (s : IterState) : IterState :=
  if s.closed then s else { s with closed := true }

/-- Iterated `Next`, used to state the absorbing-state properties. -/
def nextN (o : Options) : Nat → IterState → IterState
  | 0, s => s
  | n + 1, s => nextN o n (next o s).2

/-- The observation sequence of `n` calls to `Next`, each followed by
`Current` and `Err`: what a client can see. -/
def runObs (o : Options) : Nat → IterState → List (Bool × Datapoint × Nat × Option (List Nat) × Option DecodeError)
  | 0, _ => []
  | n + 1, s =>
    let r := next o s
    (r.1, (current r.2).1, (current r.2).2.1, (current r.2).2.2, errOf r.2) :: runObs o n r.2

/-! ## Concrete fixtures

A small marker scheme (3 opcode bits `111`, 2 value bits; marker
values 0 = end of stream, 1 = annotation, 2 = time unit, 3 unused) and
a time encoding scheme for unit 1 (second), used for the concrete
evaluations below.  The repository's concrete default schemes live in
a file outside the given sources; the claims hold for any scheme, so
any well-formed instance serves as input data. -/

def mesW : MarkerEncodingScheme :=
  { numOpcodeBits := 3, numValueBits := 2, opcode := 7, endOfStream := 0, annMarker := 1, timeUnitMarker := 2 }

def tesW : TimeEncodingScheme :=
  { zeroBucket := { opcode := 0, numValueBits := 0 },
    buckets := [{ opcode := 2, numValueBits := 4 }],
    defaultBucket := { opcode := 3, numValueBits := 8 } }

def optsW : Options :=
  { tess := fun u => if u = 1 then some tesW else none,
    mes := mesW, defaultTimeUnit := 1, initialTimeUnitFn := fun _ d => d }

/-- Like `optsW` but with a scheme registered for unit 2 as well. -/
def optsW2 : Options :=
  { tess := fun u => if u = 1 ∨ u = 2 then some tesW else none,
    mes := mesW, defaultTimeUnit := 1, initialTimeUnitFn := fun _ d => d }

/-- A mid-decode state: unit 1 (second), one record already emitted. -/
def stateW (bits : List Bool) : IterState :=
  { bits := bits, t := 5000000000, dt := 1000000000, vb := 4611686018427387904, xor := 0, done := false, err := none, ant := none, tu := 1, tuChanged := false, closed := false }

/-! ## Basic lemmas about the guarded reads -/

theorem readBits_of_not_hasNext {s : IterState} (n : Nat) (h : hasNext s = false) :
    readBits n s = (0, s) := by
  simp [readBits, h]

theorem readVarint_of_not_hasNext {s : IterState} (h : hasNext s = false) :
    readVarint s = (0, s) := by
  simp [readVarint, h]

theorem readBits_eq {s : IterState} {n : Nat} (h : hasNext s = true)
    (hlen : n ≤ s.bits.length) :
    readBits n s = (bitsToNat (s.bits.take n), { s with bits := s.bits.drop n, err := none }) := by
  simp [readBits, h, istreamReadBits, hlen]

theorem tryPeekBits_eq {s : IterState} {n : Nat} (h : hasNext s = true)
    (hlen : n ≤ s.bits.length) :
    tryPeekBits n s = some (bitsToNat (s.bits.take n)) := by
  simp [tryPeekBits, h, istreamPeekBits, hlen]

theorem tryPeekBits_of_short {s : IterState} {n : Nat} (hlen : s.bits.length < n) :
    tryPeekBits n s = none := by
  simp [tryPeekBits, istreamPeekBits]
  intro
  omega

theorem next_of_not_hasNext {o : Options} {s : IterState} (h : hasNext s = false) :
    next o s = (false, s) := by
  simp [next, h]

theorem hasNext_true_iff {s : IterState} :
    hasNext s = true ↔ s.err = none ∧ s.done = false ∧ s.closed = false := by
  cases s with
  | mk bits t dt vb xor done err ant tu tuChanged closed =>
    cases err <;> cases done <;> cases closed <;> simp [hasNext, hasError, isDone, isClosed]

theorem i64_of_range {x : Int} (h1 : -(2 ^ 63) ≤ x) (h2 : x < 2 ^ 63) : i64 x = x := by
  unfold i64
  omega

theorem hasNext_false_of_err {s : IterState} {e : DecodeError} (h : s.err = some e) :
    hasNext s = false := by
  simp [hasNext, hasError, h]

theorem hasNext_false_of_done {s : IterState} (h : s.done = true) :
    hasNext s = false := by
  simp [hasNext, isDone, h]

theorem hasNext_false_of_closed {s : IterState} (h : s.closed = true) :
    hasNext s = false := by
  simp [hasNext, isClosed, h]

theorem nextN_of_not_hasNext {o : Options} {s : IterState} (n : Nat)
    (h : hasNext s = false) : nextN o n s = s := by
  induction n with
  | zero => rfl
  | succ n ih => rw [nextN, next_of_not_hasNext h]; exact ih

/-- When `tryReadMarker` reports no marker, it did not change the state
and reported a zero delta. -/
theorem tryReadMarkerVal_false {o : Options} {rec : IterState → Int × IterState}
    {s : IterState} {v : Nat} (h : (tryReadMarkerVal o rec s v).1.2 = false) :
    tryReadMarkerVal o rec s v = ((0, false), s) := by
  unfold tryReadMarkerVal at h ⊢
  by_cases h1 : v >>> o.mes.numValueBits ≠ o.mes.opcode
  · rw [if_pos h1]
  · rw [if_neg h1] at h ⊢
    by_cases h2 : v &&& (1 <<< o.mes.numValueBits - 1) = o.mes.endOfStream
    · rw [if_pos h2] at h
      simp at h
    · rw [if_neg h2] at h ⊢
      by_cases h3 : v &&& (1 <<< o.mes.numValueBits - 1) = o.mes.annMarker
      · rw [if_pos h3] at h
        simp at h
      · rw [if_neg h3] at h ⊢
        by_cases h4 : v &&& (1 <<< o.mes.numValueBits - 1) = o.mes.timeUnitMarker
        · rw [if_pos h4] at h
          simp at h
        · rw [if_neg h4]

theorem tryReadMarkerAux_false {o : Options} {rec : IterState → Int × IterState}
    {s : IterState} (h : (tryReadMarkerAux o rec s).1.2 = false) :
    tryReadMarkerAux o rec s = ((0, false), s) := by
  unfold tryReadMarkerAux at h ⊢
  rcases hp : tryPeekBits (o.mes.numOpcodeBits + o.mes.numValueBits) s with _ | v
  · rfl
  · rw [hp] at h
    exact tryReadMarkerVal_false h

/-! ## Claim theorems -/

/-- C4: errors are sticky and the terminal state (`done`, `err`, or
`closed`) is absorbing: once `err` is non-nil (or `done` or `closed`
is set), `Next` returns `false` with the state — bits included —
completely unchanged, for this call and every later one, so `Err`
keeps returning the same first error; and the guarded field reads
(`readBits`, `readVarint`) cannot run, hence cannot overwrite it. -/
theorem tsz_c4_sticky_errors :
    (∀ (o : Options) (s : IterState), hasNext s = false → next o s = (false, s)) ∧
    (∀ (o : Options) (s : IterState) (e : DecodeError), s.err = some e →
      next o s = (false, s) ∧ (next o s).2.err = some e) ∧
    (∀ (o : Options) (s : IterState), s.done = true → next o s = (false, s)) ∧
    (∀ (o : Options) (s : IterState), s.closed = true → next o s = (false, s)) ∧
    (∀ (o : Options) (s : IterState) (n : Nat), hasNext s = false → nextN o n s = s) ∧
    (∀ (s : IterState) (n : Nat) (e : DecodeError), s.err = some e → readBits n s = (0, s)) ∧
    (∀ (s : IterState) (e : DecodeError), s.err = some e → readVarint s = (0, s)) := by
  refine ⟨fun o s h => next_of_not_hasNext h,
    fun o s e h => ?_,
    fun o s h => next_of_not_hasNext (hasNext_false_of_done h),
    fun o s h => next_of_not_hasNext (hasNext_false_of_closed h),
    fun o s n h => nextN_of_not_hasNext n h,
    fun s n e h => readBits_of_not_hasNext n (hasNext_false_of_err h),
    fun s e h => readVarint_of_not_hasNext (hasNext_false_of_err h)⟩
  rw [next_of_not_hasNext (hasNext_false_of_err h)]
  exact ⟨rfl, h⟩

/-- C4 witness: a state carrying an error is left untouched by `Next`. -/
theorem tsz_c4_witness :
    next optsW { stateW [true, false] with err := some .unexpectedEof } =
      (false, { stateW [true, false] with err := some .unexpectedEof }) :=
  (tsz_c4_sticky_errors.2.1 optsW
    { stateW [true, false] with err := some .unexpectedEof } .unexpectedEof rfl).1

/-- C3: when a TimeUnit marker has changed the active unit
(`tuChanged` set), the delta-of-delta read next in that call is
decoded as 64 raw bits sign-extended to a signed nanosecond count
(whatever the scheme's buckets say), and at the end of any `Next`
whose final state has `tuChanged` set the stored delta `dt` is zero. -/
theorem tsz_c3_tu_change_resets_dt :
    (∀ (tes : TimeEncodingScheme) (s : IterState), s.tuChanged = true →
      hasNext s = true → 64 ≤ s.bits.length →
      readDeltaOfDelta tes s =
        (signExtend (bitsToNat (s.bits.take 64)) 64,
          { s with bits := s.bits.drop 64, err := none })) ∧
    (∀ (o : Options) (s : IterState), hasNext s = true →
      (next o s).2.tuChanged = true → (next o s).2.dt = 0) := by
  constructor
  · intro tes s htu hn hlen
    unfold readDeltaOfDelta
    rw [if_pos htu, readBits_eq hn hlen]
  · intro o s hn
    unfold next
    rw [if_pos hn]
    cases h1 : (nextBody o { s with ant := none, tuChanged := false }).tuChanged <;>
      simp [h1]

/-- A concrete time-unit-switch stream: TimeUnit marker, unit code 2,
a 64-bit nanosecond dod of 500000000, then a zero-XOR value bit. -/
def sTU : IterState :=
  stateW (natToBits 5 30 ++ natToBits 8 2 ++ natToBits 64 500000000 ++ natToBits 1 0)

/-- C3 witness: a `tuChanged` state consumes 64 raw bits for its dod,
and the concrete time-unit-switch stream ends its `Next` with `dt = 0`. -/
theorem tsz_c3_witness :
    readDeltaOfDelta tesW { stateW (natToBits 64 500000000) with tuChanged := true } =
      (signExtend (bitsToNat ((stateW (natToBits 64 500000000)).bits.take 64)) 64,
        { stateW (natToBits 64 500000000) with tuChanged := true, bits := (stateW (natToBits 64 500000000)).bits.drop 64, err := none }) ∧
    (next optsW2 sTU).2.dt = 0 := by
  constructor
  · exact tsz_c3_tu_change_resets_dt.1 tesW _ rfl (by decide) (by decide)
  · exact tsz_c3_tu_change_resets_dt.2 optsW2 sTU (by decide) (by decide)

/-- The TimeUnit branch of the marker-value switch: the marker bits
are consumed, the unit code is read, and the marker-or-dod attempt
recurses on the updated state. -/
theorem tryReadMarkerVal_timeUnit {o : Options} {rec : IterState → Int × IterState}
    {s : IterState} {v : Nat}
    (hop : v >>> o.mes.numValueBits = o.mes.opcode)
    (h2 : v &&& (1 <<< o.mes.numValueBits - 1) ≠ o.mes.endOfStream)
    (h3 : v &&& (1 <<< o.mes.numValueBits - 1) ≠ o.mes.annMarker)
    (h4 : v &&& (1 <<< o.mes.numValueBits - 1) = o.mes.timeUnitMarker) :
    tryReadMarkerVal o rec s v =
      (((rec (readTimeUnit (readBits (o.mes.numOpcodeBits + o.mes.numValueBits) s).2)).1, true),
        (rec (readTimeUnit (readBits (o.mes.numOpcodeBits + o.mes.numValueBits) s).2)).2) := by
  unfold tryReadMarkerVal
  rw [if_neg (fun hc => hc hop), if_neg h2, if_neg h3, if_pos h4]

/-- When the marker-value switch falls through (no recognized marker),
the state is unchanged and no marker is reported. -/
theorem tryReadMarkerVal_unknown {o : Options} {rec : IterState → Int × IterState}
    {s : IterState} {v : Nat}
    (hop : v >>> o.mes.numValueBits = o.mes.opcode)
    (h2 : v &&& (1 <<< o.mes.numValueBits - 1) ≠ o.mes.endOfStream)
    (h3 : v &&& (1 <<< o.mes.numValueBits - 1) ≠ o.mes.annMarker)
    (h4 : v &&& (1 <<< o.mes.numValueBits - 1) ≠ o.mes.timeUnitMarker) :
    tryReadMarkerVal o rec s v = ((0, false), s) := by
  unfold tryReadMarkerVal
  rw [if_neg (fun hc => hc hop), if_neg h2, if_neg h3, if_neg h4]

/-- C6: when the peeked `opcode_bits + value_bits` bits carry the
marker opcode in their high bits but the low value bits match none of
the EndOfStream / Annotation / TimeUnit marker values, `tryReadMarker`
consumes nothing and reports no marker; a failed peek (too few bits
remaining) likewise consumes nothing; and whenever no marker was
consumed, `readMarkerOrDeltaOfDelta` decodes the upcoming bits as a
regular delta-of-delta under the registered scheme. -/
theorem tsz_c6_unknown_marker_falls_through :
    (∀ (o : Options) (rec : IterState → Int × IterState) (s : IterState),
      s.bits.length < o.mes.numOpcodeBits + o.mes.numValueBits →
      tryReadMarkerAux o rec s = ((0, false), s)) ∧
    (∀ (o : Options) (rec : IterState → Int × IterState) (s : IterState),
      hasNext s = true →
      o.mes.numOpcodeBits + o.mes.numValueBits ≤ s.bits.length →
      bitsToNat (s.bits.take (o.mes.numOpcodeBits + o.mes.numValueBits)) >>> o.mes.numValueBits
        = o.mes.opcode →
      bitsToNat (s.bits.take (o.mes.numOpcodeBits + o.mes.numValueBits)) &&& (1 <<< o.mes.numValueBits - 1)
        ≠ o.mes.endOfStream →
      bitsToNat (s.bits.take (o.mes.numOpcodeBits + o.mes.numValueBits)) &&& (1 <<< o.mes.numValueBits - 1)
        ≠ o.mes.annMarker →
      bitsToNat (s.bits.take (o.mes.numOpcodeBits + o.mes.numValueBits)) &&& (1 <<< o.mes.numValueBits - 1)
        ≠ o.mes.timeUnitMarker →
      tryReadMarkerAux o rec s = ((0, false), s)) ∧
    (∀ (o : Options) (fuel : Nat) (s : IterState) (tes : TimeEncodingScheme),
      (tryReadMarker o fuel s).1.2 = false →
      o.tess s.tu = some tes →
      readMarkerOrDeltaOfDelta o (fuel + 1) s = readDeltaOfDelta tes s) := by
  refine ⟨fun o rec s hlen => ?_, fun o rec s hn hlen hop h2 h3 h4 => ?_,
    fun o fuel s tes hm hs => ?_⟩
  · unfold tryReadMarkerAux
    rw [tryPeekBits_of_short hlen]
  · unfold tryReadMarkerAux
    rw [tryPeekBits_eq hn hlen]
    exact tryReadMarkerVal_unknown hop h2 h3 h4
  · have he : tryReadMarkerAux o (readMarkerOrDeltaOfDelta o fuel) s = ((0, false), s) :=
      tryReadMarkerAux_false hm
    simp only [readMarkerOrDeltaOfDelta, he, hs]
    rfl

/-- C6 witness: the concrete unknown marker value `11111` under the
five-bit scheme `mesW` is not consumed, and with the scheme for unit 1
registered the stream is then decoded as a delta-of-delta. -/
theorem tsz_c6_witness :
    tryReadMarkerAux optsW (readMarkerOrDeltaOfDelta optsW 0) (stateW (natToBits 5 31 ++ natToBits 5 0 ++ natToBits 1 0))
      = ((0, false), stateW (natToBits 5 31 ++ natToBits 5 0 ++ natToBits 1 0)) ∧
    readMarkerOrDeltaOfDelta optsW 1 (stateW (natToBits 5 31 ++ natToBits 5 0 ++ natToBits 1 0))
      = readDeltaOfDelta tesW (stateW (natToBits 5 31 ++ natToBits 5 0 ++ natToBits 1 0)) := by
  constructor
  · exact tsz_c6_unknown_marker_falls_through.2.1 optsW _ _ (by decide) (by decide)
      (by decide) (by decide) (by decide) (by decide)
  · exact tsz_c6_unknown_marker_falls_through.2.2 optsW 0 _ tesW (by decide) (by decide)

/-- The concrete C1 counterexample state: a TimeUnit marker carrying
the invalid unit code 200, followed by five non-marker bits. -/
def sC1 : IterState := stateW (natToBits 5 30 ++ natToBits 8 200 ++ natToBits 5 0)

/-- C1 counterexample: on `sC1` the `Next` call that consumes the
TimeUnit marker with invalid code 200 does NOT retain the active unit
(it stores 200 in `tu`) and does NOT continue without error (the
subsequent timestamp read fails with SchemeMissing for code 200), so
the claim as stated is false at this input. -/
theorem tsz_c1_cex :
    ¬ ((next optsW sC1).2.tu = sC1.tu ∧ (next optsW sC1).2.tuChanged = false ∧
        (next optsW sC1).2.err = none) := by
  decide

/-- C1 (amended): on a TimeUnit marker whose 8-bit unit code is not a
valid unit, `tuChanged` is left untouched (so it stays false) and no
error is set by the unit read itself, but the code IS applied: `tu` is
overwritten with the invalid code; the marker is accepted and decoding
continues with the recursive marker-or-dod attempt on the updated
state (which fails with SchemeMissing if no scheme is registered for
the stored code). -/
theorem tsz_c1_invalid_time_unit :
    (∀ (s : IterState), hasNext s = true → 8 ≤ s.bits.length →
      unitIsValid (bitsToNat (s.bits.take 8)) = false →
      readTimeUnit s =
        { s with bits := s.bits.drop 8, err := none, tu := bitsToNat (s.bits.take 8) }) ∧
    (∀ (o : Options) (rec : IterState → Int × IterState) (s : IterState),
      hasNext s = true →
      o.mes.numOpcodeBits + o.mes.numValueBits ≤ s.bits.length →
      bitsToNat (s.bits.take (o.mes.numOpcodeBits + o.mes.numValueBits)) >>> o.mes.numValueBits
        = o.mes.opcode →
      bitsToNat (s.bits.take (o.mes.numOpcodeBits + o.mes.numValueBits)) &&& (1 <<< o.mes.numValueBits - 1)
        ≠ o.mes.endOfStream →
      bitsToNat (s.bits.take (o.mes.numOpcodeBits + o.mes.numValueBits)) &&& (1 <<< o.mes.numValueBits - 1)
        ≠ o.mes.annMarker →
      bitsToNat (s.bits.take (o.mes.numOpcodeBits + o.mes.numValueBits)) &&& (1 <<< o.mes.numValueBits - 1)
        = o.mes.timeUnitMarker →
      tryReadMarkerAux o rec s =
        (((rec (readTimeUnit (readBits (o.mes.numOpcodeBits + o.mes.numValueBits) s).2)).1, true),
          (rec (readTimeUnit (readBits (o.mes.numOpcodeBits + o.mes.numValueBits) s).2)).2)) := by
  constructor
  · intro s hn hlen hinv
    simp only [readTimeUnit, readBits_eq hn hlen]
    rw [if_neg (fun hc => by rw [hinv] at hc; exact absurd hc.1 (by simp))]
  · intro o rec s hn hlen hop h2 h3 h4
    unfold tryReadMarkerAux
    rw [tryPeekBits_eq hn hlen]
    exact tryReadMarkerVal_timeUnit hop h2 h3 h4

/-- C1 witness: the invalid unit code 200 is stored in `tu` while
`tuChanged` and `err` are untouched. -/
theorem tsz_c1_witness :
    readTimeUnit (stateW (natToBits 8 200)) =
      { stateW (natToBits 8 200) with
          bits := (stateW (natToBits 8 200)).bits.drop 8, err := none,
          tu := bitsToNat ((stateW (natToBits 8 200)).bits.take 8) } :=
  tsz_c1_invalid_time_unit.1 (stateW (natToBits 8 200)) (by decide) (by decide) (by decide)

/-- The concrete C2 counterexample state: a TimeUnit marker switching
to the valid unit code 2, for which no scheme is registered in
`optsW`, followed by five non-marker bits. -/
def sC2 : IterState := stateW (natToBits 5 30 ++ natToBits 8 2 ++ natToBits 5 0)

/-- C2 counterexample: on `sC2` the TimeUnit marker sets `tuChanged`
during the `Next` call, and the delta-of-delta read that follows in
the same call nevertheless fails with SchemeMissing for the new unit —
the scheme table is consulted even though `tuChanged` is set, refuting
the claim as stated. -/
theorem tsz_c2_cex :
    (next optsW sC2).2.tuChanged = true ∧
    (next optsW sC2).2.err = some (.schemeMissing 2) := by
  decide

/-- C2 (amended): `readMarkerOrDeltaOfDelta` consults the scheme table
whenever no marker was consumed, regardless of `tuChanged`: a missing
scheme for the active unit raises SchemeMissing even when `tuChanged`
is set; only when the scheme exists does `readDeltaOfDelta` run, and
there a set `tuChanged` makes it read exactly 64 sign-extended bits of
nanoseconds without using the scheme's buckets. -/
theorem tsz_c2_scheme_lookup_precedes_tu_check :
    (∀ (o : Options) (fuel : Nat) (s : IterState),
      (tryReadMarker o fuel s).1.2 = false →
      o.tess s.tu = none →
      readMarkerOrDeltaOfDelta o (fuel + 1) s =
        (0, { s with err := some (.schemeMissing s.tu) })) ∧
    (∀ (o : Options) (fuel : Nat) (s : IterState) (tes : TimeEncodingScheme),
      (tryReadMarker o fuel s).1.2 = false →
      o.tess s.tu = some tes →
      readMarkerOrDeltaOfDelta o (fuel + 1) s = readDeltaOfDelta tes s) ∧
    (∀ (tes : TimeEncodingScheme) (s : IterState), s.tuChanged = true →
      hasNext s = true → 64 ≤ s.bits.length →
      readDeltaOfDelta tes s =
        (signExtend (bitsToNat (s.bits.take 64)) 64,
          { s with bits := s.bits.drop 64, err := none })) := by
  refine ⟨fun o fuel s hm hs => ?_, fun o fuel s tes hm hs => ?_,
    fun tes s htu hn hlen => ?_⟩
  · have he : tryReadMarkerAux o (readMarkerOrDeltaOfDelta o fuel) s = ((0, false), s) :=
      tryReadMarkerAux_false hm
    simp only [readMarkerOrDeltaOfDelta, he, hs]
    rfl
  · have he : tryReadMarkerAux o (readMarkerOrDeltaOfDelta o fuel) s = ((0, false), s) :=
      tryReadMarkerAux_false hm
    simp only [readMarkerOrDeltaOfDelta, he, hs]
    rfl
  · unfold readDeltaOfDelta
    rw [if_pos htu, readBits_eq hn hlen]

/-- C2 witness: with `tuChanged` already set and no scheme for the
active unit 2, the dod read errors with SchemeMissing. -/
theorem tsz_c2_witness :
    readMarkerOrDeltaOfDelta optsW 1 { stateW (natToBits 5 0) with tu := 2, tuChanged := true }
      = (0, { { stateW (natToBits 5 0) with tu := 2, tuChanged := true } with
              err := some (.schemeMissing 2) }) :=
  tsz_c2_scheme_lookup_precedes_tu_check.1 optsW 0
    { stateW (natToBits 5 0) with tu := 2, tuChanged := true } (by decide) (by decide)

/-! ## Lemmas about the annotation path -/

theorem update_err_none {s : IterState} (h : s.err = none) :
    ({ s with err := none } : IterState) = s := by
  cases s
  simp_all

theorem hasNext_set_bits {s : IterState} (hn : hasNext s = true) (b : List Bool) :
    hasNext { s with bits := b, err := none } = true := by
  rcases hasNext_true_iff.mp hn with ⟨_, h2, h3⟩
  exact hasNext_true_iff.mpr ⟨rfl, h2, h3⟩

/-- The byte loop reads exactly `L` bytes, MSB-first, consuming
`8 * L` bits. -/
theorem readBytesLoop_eq : ∀ (L : Nat) (s : IterState), hasNext s = true →
    8 * L ≤ s.bits.length →
    readBytesLoop L s = (toBytes L s.bits, { s with bits := s.bits.drop (8 * L), err := none })
  | 0, s, hn, _ => by
    simp only [readBytesLoop, toBytes, Nat.mul_zero, List.drop_zero]
    rw [update_err_none (hasNext_true_iff.mp hn).1]
  | L + 1, s, hn, hlen => by
    have h8 : 8 ≤ s.bits.length := by
      have : 8 * (L + 1) = 8 * L + 8 := by ring
      omega
    have e1 := readBits_eq hn h8
    have hn1 : hasNext { s with bits := s.bits.drop 8, err := none } = true :=
      hasNext_set_bits hn _
    have hlen1 : 8 * L ≤ ({ s with bits := s.bits.drop 8, err := none } : IterState).bits.length := by
      have h1 : ({ s with bits := s.bits.drop 8, err := none } : IterState).bits.length
          = s.bits.length - 8 := by
        simp
      have : 8 * (L + 1) = 8 * L + 8 := by ring
      omega
    have e2 := readBytesLoop_eq L _ hn1 hlen1
    have hdd : (s.bits.drop 8).drop (8 * L) = s.bits.drop (8 * (L + 1)) := by
      rw [List.drop_drop]
      congr 1
      ring
    simp only [readBytesLoop, e1, e2, toBytes, hdd]

/-- The Annotation branch of the marker-value switch: the marker bits
are consumed, the annotation is read, and the marker-or-dod attempt
recurses on the updated state. -/
theorem tryReadMarkerVal_ann {o : Options} {rec : IterState → Int × IterState}
    {s : IterState} {v : Nat}
    (hop : v >>> o.mes.numValueBits = o.mes.opcode)
    (h2 : v &&& (1 <<< o.mes.numValueBits - 1) ≠ o.mes.endOfStream)
    (h3 : v &&& (1 <<< o.mes.numValueBits - 1) = o.mes.annMarker) :
    tryReadMarkerVal o rec s v =
      (((rec (readAnnot (readBits (o.mes.numOpcodeBits + o.mes.numValueBits) s).2)).1, true),
        (rec (readAnnot (readBits (o.mes.numOpcodeBits + o.mes.numValueBits) s).2)).2) := by
  unfold tryReadMarkerVal
  rw [if_neg (fun hc => hc hop), if_neg h2, if_pos h3]

/-- C7: on an Annotation marker the decoder reads a varint `L - 1`,
adds 1 in Go int64 arithmetic to obtain `L` (so at varint value
`2 ^ 63 - 1` the length wraps to `-2 ^ 63`); a resulting `L ≤ 0` fails
with InvalidAnnotationLength and stores no annotation; a positive `L`
(with enough bits) reads exactly `L` bytes of 8 bits each into `ant`,
which `Current` attaches to the next emitted datapoint; and after the
annotation the marker-or-dod attempt runs again. -/
theorem tsz_c7_ann_length :
    (∀ (s : IterState) (v : Int) (rest : List Bool), hasNext s = true →
      istreamReadVarint s.bits = (v, rest, none) →
      i64 (v + 1) ≤ 0 →
      readAnnot s = { s with bits := rest, err := some (.invalidAnnLength (i64 (v + 1))) }) ∧
    (∀ (s : IterState) (v : Int) (rest : List Bool), hasNext s = true →
      istreamReadVarint s.bits = (v, rest, none) →
      0 < i64 (v + 1) →
      8 * (i64 (v + 1)).toNat ≤ rest.length →
      readAnnot s = { s with
        bits := rest.drop (8 * (i64 (v + 1)).toNat), err := none,
        ant := some (toBytes (i64 (v + 1)).toNat rest) }) ∧
    (∀ (s : IterState), (current s).2.2 = s.ant) ∧
    (∀ (o : Options) (rec : IterState → Int × IterState) (s : IterState),
      hasNext s = true →
      o.mes.numOpcodeBits + o.mes.numValueBits ≤ s.bits.length →
      bitsToNat (s.bits.take (o.mes.numOpcodeBits + o.mes.numValueBits)) >>> o.mes.numValueBits
        = o.mes.opcode →
      bitsToNat (s.bits.take (o.mes.numOpcodeBits + o.mes.numValueBits)) &&& (1 <<< o.mes.numValueBits - 1)
        ≠ o.mes.endOfStream →
      bitsToNat (s.bits.take (o.mes.numOpcodeBits + o.mes.numValueBits)) &&& (1 <<< o.mes.numValueBits - 1)
        = o.mes.annMarker →
      tryReadMarkerAux o rec s =
        (((rec (readAnnot (readBits (o.mes.numOpcodeBits + o.mes.numValueBits) s).2)).1, true),
          (rec (readAnnot (readBits (o.mes.numOpcodeBits + o.mes.numValueBits) s).2)).2)) := by
  refine ⟨fun s v rest hn hvar hneg => ?_, fun s v rest hn hvar hpos hlen => ?_,
    fun s => rfl, fun o rec s hn hlen hop h2 h3 => ?_⟩
  · simp only [readAnnot, readVarint, hn, if_true, hvar]
    rw [if_neg (by simp [hasError]), if_pos hneg]
  · simp only [readAnnot, readVarint, hn, if_true, hvar]
    rw [if_neg (by simp [hasError]), if_neg (by omega)]
    have hn1 : hasNext { s with bits := rest, err := none } = true := hasNext_set_bits hn _
    have e2 := readBytesLoop_eq (i64 (v + 1)).toNat _ hn1 (by simpa using hlen)
    simp only [e2]
  · unfold tryReadMarkerAux
    rw [tryPeekBits_eq hn hlen]
    exact tryReadMarkerVal_ann hop h2 h3

/-- The 10-byte varint `FE FF FF FF FF FF FF FF FF 01`, the legal
encoding of `2 ^ 63 - 1` — the value at which Go's `antLen` addition
wraps to `-2 ^ 63`. -/
def varintMaxBits : List Bool :=
  natToBits 8 254 ++ natToBits 8 255 ++ natToBits 8 255 ++ natToBits 8 255 ++ natToBits 8 255 ++ natToBits 8 255 ++ natToBits 8 255 ++ natToBits 8 255 ++ natToBits 8 255 ++ natToBits 8 1

/-- C7 witness: the varint byte `0x01` decodes to `-1`, giving the
invalid length 0; the varint byte `0x02` decodes to `1`, giving length
2, and the two following bytes `0xDE 0xAD` become the annotation; the
varint for `2 ^ 63 - 1` makes the length wrap to `-2 ^ 63` and fail
with InvalidAnnotationLength. -/
theorem tsz_c7_witness :
    readAnnot (stateW (natToBits 8 1 ++ natToBits 10 0)) =
      { stateW (natToBits 8 1 ++ natToBits 10 0) with
        bits := natToBits 10 0, err := some (.invalidAnnLength 0) } ∧
    readAnnot (stateW (natToBits 8 2 ++ natToBits 8 222 ++ natToBits 8 173)) =
      { stateW (natToBits 8 2 ++ natToBits 8 222 ++ natToBits 8 173) with
        bits := (natToBits 8 222 ++ natToBits 8 173).drop 16, err := none,
        ant := some (toBytes 2 (natToBits 8 222 ++ natToBits 8 173)) } ∧
    readAnnot (stateW varintMaxBits) =
      { stateW varintMaxBits with
        bits := [], err := some (.invalidAnnLength (-(2 ^ 63))) } := by
  refine ⟨?_, ?_, ?_⟩
  · exact tsz_c7_ann_length.1 (stateW (natToBits 8 1 ++ natToBits 10 0)) (-1) (natToBits 10 0)
      (by decide) (by decide) (by decide)
  · exact tsz_c7_ann_length.2.1 (stateW (natToBits 8 2 ++ natToBits 8 222 ++ natToBits 8 173)) 1
      (natToBits 8 222 ++ natToBits 8 173) (by decide) (by decide) (by decide) (by decide)
  · exact tsz_c7_ann_length.1 (stateW varintMaxBits) (2 ^ 63 - 1) []
      (by decide) (by decide) (by decide)

/-! ## Lemmas about the XOR value path -/

theorem readBits_one_cons {s : IterState} {b : Bool} {r : List Bool}
    (hn : hasNext s = true) (hb : s.bits = b :: r) :
    readBits 1 s = (b.toNat, { s with bits := r, err := none }) := by
  rw [readBits_eq hn (by rw [hb]; simp), hb]
  simp [bitsToNat]

/-- C8: the three-branch XOR decoding.  A first bit of 0 yields
XOR = 0.  Prefix `10` reads `w = 64 - prev_leading - prev_trailing`
bits, both counts computed from the stored `xor`, and shifts left by
`prev_trailing` (modulo `2 ^ 64`).  Prefix `11` reads 6 bits
`num_leading`, 6 bits `num_meaningful - 1`, then `num_meaningful` bits,
shifted left by `64 - num_leading - num_meaningful`.  In all cases
`readNextValue` stores the result in `xor` and XORs it into `vb`, and
`Current` surfaces exactly the bit pattern `vb`. -/
theorem tsz_c8_xor_decoding :
    (∀ (s : IterState) (r : List Bool), hasNext s = true →
      s.bits = false :: r →
      readXOR s = (0, { s with bits := r, err := none })) ∧
    (∀ (s : IterState) (r : List Bool), hasNext s = true →
      s.bits = true :: false :: r →
      (64 - (leadingZeros64 s.xor : Int) - (trailingZeros64 s.xor : Int)).toNat ≤ r.length →
      readXOR s =
        (bitsToNat (r.take (64 - (leadingZeros64 s.xor : Int) - (trailingZeros64 s.xor : Int)).toNat)
            <<< trailingZeros64 s.xor % 2 ^ 64,
          { s with
            bits := r.drop (64 - (leadingZeros64 s.xor : Int) - (trailingZeros64 s.xor : Int)).toNat,
            err := none })) ∧
    (∀ (s : IterState) (r : List Bool), hasNext s = true →
      s.bits = true :: true :: r →
      12 + (bitsToNat ((r.drop 6).take 6) + 1) ≤ r.length →
      readXOR s =
        (shlUint64 (bitsToNat (((r.drop 6).drop 6).take (bitsToNat ((r.drop 6).take 6) + 1)))
            (64 - (bitsToNat (r.take 6) : Int) - ((bitsToNat ((r.drop 6).take 6) + 1 : Nat) : Int)),
          { s with
            bits := ((r.drop 6).drop 6).drop (bitsToNat ((r.drop 6).take 6) + 1),
            err := none })) ∧
    (∀ (s : IterState), readNextValue s =
      { (readXOR s).2 with xor := (readXOR s).1, vb := (readXOR s).2.vb ^^^ (readXOR s).1 }) ∧
    (∀ (s : IterState), (current s).1.valueBits = s.vb) := by
  refine ⟨fun s r hn hb => ?_, fun s r hn hb hlen => ?_, fun s r hn hb hlen => ?_,
    fun s => rfl, fun s => rfl⟩
  · have e1 := readBits_one_cons hn hb
    simp only [readXOR, e1, Bool.toNat_false, opcodeZeroValueXOR, if_pos rfl]
    simp
  · have e1 := readBits_one_cons hn hb
    have e2 : readBits 1 { s with bits := false :: r, err := none } =
        (0, { s with bits := r, err := none }) := by
      have := readBits_one_cons (hasNext_set_bits hn (false :: r)) (rfl :
        ({ s with bits := false :: r, err := none } : IterState).bits = false :: r)
      simpa using this
    have hn2 : hasNext { s with bits := r, err := none } = true := hasNext_set_bits hn r
    have e3 := readBits_eq hn2 (show (64 - (leadingZeros64 s.xor : Int) - (trailingZeros64 s.xor : Int)).toNat ≤ ({ s with bits := r, err := none } : IterState).bits.length from hlen)
    simp only [readXOR, e1, e2, e3, Bool.toNat_true]
    norm_num [opcodeZeroValueXOR, opcodeContainedValueXOR]
  · have e1 := readBits_one_cons hn hb
    have e2 : readBits 1 { s with bits := true :: r, err := none } =
        (1, { s with bits := r, err := none }) := by
      have := readBits_one_cons (hasNext_set_bits hn (true :: r)) (rfl :
        ({ s with bits := true :: r, err := none } : IterState).bits = true :: r)
      simpa using this
    have hn2 : hasNext { s with bits := r, err := none } = true := hasNext_set_bits hn r
    have e3 := readBits_eq hn2 (show 6 ≤ ({ s with bits := r, err := none } : IterState).bits.length by simp; omega)
    have hn3 : hasNext { s with bits := r.drop 6, err := none } = true := hasNext_set_bits hn _
    have e4 := readBits_eq hn3 (show 6 ≤ ({ s with bits := r.drop 6, err := none } : IterState).bits.length by simp; omega)
    have hn4 : hasNext { s with bits := (r.drop 6).drop 6, err := none } = true := hasNext_set_bits hn _
    have e5 := readBits_eq hn4 (show bitsToNat ((r.drop 6).take 6) + 1 ≤ ({ s with bits := (r.drop 6).drop 6, err := none } : IterState).bits.length by simp [Nat.sub_sub]; omega)
    simp only [readXOR, e1, e2, e3, e4, e5, Bool.toNat_true]
    norm_num [opcodeZeroValueXOR, opcodeContainedValueXOR]

/-- C8 witness: the zero branch on a concrete state, and the
new-window branch `11`, leading 2, meaningful 4, window `1011`. -/
theorem tsz_c8_witness :
    readXOR (stateW [false, true]) =
      (0, { stateW [false, true] with bits := [true], err := none }) ∧
    readXOR (stateW (natToBits 2 3 ++ natToBits 6 2 ++ natToBits 6 3 ++ natToBits 4 11)) =
      (shlUint64 (bitsToNat ((((natToBits 6 2 ++ natToBits 6 3 ++ natToBits 4 11).drop 6).drop 6).take (bitsToNat (((natToBits 6 2 ++ natToBits 6 3 ++ natToBits 4 11).drop 6).take 6) + 1)))
          (64 - (bitsToNat ((natToBits 6 2 ++ natToBits 6 3 ++ natToBits 4 11).take 6) : Int) - ((bitsToNat (((natToBits 6 2 ++ natToBits 6 3 ++ natToBits 4 11).drop 6).take 6) + 1 : Nat) : Int)),
        { stateW (natToBits 2 3 ++ natToBits 6 2 ++ natToBits 6 3 ++ natToBits 4 11) with
          bits := (((natToBits 6 2 ++ natToBits 6 3 ++ natToBits 4 11).drop 6).drop 6).drop (bitsToNat (((natToBits 6 2 ++ natToBits 6 3 ++ natToBits 4 11).drop 6).take 6) + 1),
          err := none }) := by
  constructor
  · exact tsz_c8_xor_decoding.1 (stateW [false, true]) [true] (by decide) (by decide)
  · exact tsz_c8_xor_decoding.2.2.1 (stateW (natToBits 2 3 ++ natToBits 6 2 ++ natToBits 6 3 ++ natToBits 4 11))
      (natToBits 6 2 ++ natToBits 6 3 ++ natToBits 4 11) (by decide) (by decide) (by decide)

/-! ## The end-of-stream trace -/

theorem hasNext_clear (s : IterState) :
    hasNext { s with ant := none, tuChanged := false } = hasNext s := rfl

/-- The EndOfStream branch of the marker-value switch. -/
theorem tryReadMarkerVal_eos {o : Options} {rec : IterState → Int × IterState}
    {s : IterState} {v : Nat}
    (hop : v >>> o.mes.numValueBits = o.mes.opcode)
    (heos : v &&& (1 <<< o.mes.numValueBits - 1) = o.mes.endOfStream) :
    tryReadMarkerVal o rec s v =
      ((0, true), { (readBits (o.mes.numOpcodeBits + o.mes.numValueBits) s).2 with done := true }) := by
  unfold tryReadMarkerVal
  rw [if_neg (fun hc => hc hop), if_pos heos]

/-- The full trace of a `Next` call on a subsequent record whose
stream starts with the EndOfStream marker: the marker bits are
consumed, `done` is set, the reported dod of 0 still advances `t` by
`dt`, and every later bit-read of the call short-circuits, leaving
`vb` unchanged and `err` nil. -/
theorem next_eos {o : Options} {s : IterState}
    (hn : hasNext s = true) (ht : ¬ s.t = timeZero)
    (hlen : o.mes.numOpcodeBits + o.mes.numValueBits ≤ s.bits.length)
    (hop : bitsToNat (s.bits.take (o.mes.numOpcodeBits + o.mes.numValueBits)) >>> o.mes.numValueBits
      = o.mes.opcode)
    (heos : bitsToNat (s.bits.take (o.mes.numOpcodeBits + o.mes.numValueBits)) &&& (1 <<< o.mes.numValueBits - 1)
      = o.mes.endOfStream) :
    next o s = (false,
      { s with
        bits := s.bits.drop (o.mes.numOpcodeBits + o.mes.numValueBits)
        t := s.t + i64 s.dt
        dt := i64 s.dt
        xor := 0
        done := true
        err := none
        ant := none
        tuChanged := false }) := by
  have hn0 : hasNext { s with ant := none, tuChanged := false } = true := by
    rw [hasNext_clear]
    exact hn
  have eb : readBits (o.mes.numOpcodeBits + o.mes.numValueBits) { s with ant := none, tuChanged := false } = (bitsToNat (s.bits.take (o.mes.numOpcodeBits + o.mes.numValueBits)), { s with ant := none, tuChanged := false, bits := s.bits.drop (o.mes.numOpcodeBits + o.mes.numValueBits), err := none }) :=
    readBits_eq hn0 hlen
  have eAux : ∀ rec, tryReadMarkerAux o rec { s with ant := none, tuChanged := false } = ((0, true), { s with ant := none, tuChanged := false, bits := s.bits.drop (o.mes.numOpcodeBits + o.mes.numValueBits), err := none, done := true }) := by
    intro rec
    unfold tryReadMarkerAux
    rw [tryPeekBits_eq hn0 hlen]
    show tryReadMarkerVal o rec { s with ant := none, tuChanged := false }
      (bitsToNat (s.bits.take (o.mes.numOpcodeBits + o.mes.numValueBits))) = _
    rw [tryReadMarkerVal_eos hop heos]
    simp only [eb]
  have eMod : readMarkerOrDeltaOfDelta o (({ s with ant := none, tuChanged := false } : IterState).bits.length + 1 + 1) { s with ant := none, tuChanged := false } = (0, { s with ant := none, tuChanged := false, bits := s.bits.drop (o.mes.numOpcodeBits + o.mes.numValueBits), err := none, done := true }) := by
    simp only [readMarkerOrDeltaOfDelta, eAux]
    rfl
  have eTs : readNextTimestamp o { s with ant := none, tuChanged := false } = { s with ant := none, tuChanged := false, bits := s.bits.drop (o.mes.numOpcodeBits + o.mes.numValueBits), err := none, done := true, dt := i64 s.dt, t := s.t + i64 s.dt } := by
    simp only [readNextTimestamp, eMod]
    simp
  have hd1 : hasNext { s with ant := none, tuChanged := false, bits := s.bits.drop (o.mes.numOpcodeBits + o.mes.numValueBits), err := none, done := true, dt := i64 s.dt, t := s.t + i64 s.dt } = false := by
    apply hasNext_false_of_done
    rfl
  have eX : readXOR { s with ant := none, tuChanged := false, bits := s.bits.drop (o.mes.numOpcodeBits + o.mes.numValueBits), err := none, done := true, dt := i64 s.dt, t := s.t + i64 s.dt } = (0, { s with ant := none, tuChanged := false, bits := s.bits.drop (o.mes.numOpcodeBits + o.mes.numValueBits), err := none, done := true, dt := i64 s.dt, t := s.t + i64 s.dt }) := by
    simp only [readXOR, readBits_of_not_hasNext _ hd1, opcodeZeroValueXOR, if_pos rfl]
    simp
  have eV : readNextValue { s with ant := none, tuChanged := false, bits := s.bits.drop (o.mes.numOpcodeBits + o.mes.numValueBits), err := none, done := true, dt := i64 s.dt, t := s.t + i64 s.dt } = { s with ant := none, tuChanged := false, bits := s.bits.drop (o.mes.numOpcodeBits + o.mes.numValueBits), err := none, done := true, dt := i64 s.dt, t := s.t + i64 s.dt, xor := 0 } := by
    simp only [readNextValue, eX]
    simp
  have eBody : nextBody o { s with ant := none, tuChanged := false } = { s with ant := none, tuChanged := false, bits := s.bits.drop (o.mes.numOpcodeBits + o.mes.numValueBits), err := none, done := true, dt := i64 s.dt, t := s.t + i64 s.dt, xor := 0 } := by
    unfold nextBody
    rw [if_neg ht, eTs, eV]
  simp only [next, hn, if_true, eBody]
  simp
  exact hasNext_false_of_done rfl

/-! ## `done` is set only by the EndOfStream branch, and cleanly

The following preservation lemmas show that no read other than the
EndOfStream branch of `tryReadMarker` touches `done`, and that when
`done` is set during a decode step the error field is nil at the end
of that step. -/

theorem readBits_done (n : Nat) (s : IterState) : ((readBits n s).2).done = s.done := by
  unfold readBits
  split <;> rfl

theorem readVarint_done (s : IterState) : ((readVarint s).2).done = s.done := by
  unfold readVarint
  split <;> rfl

theorem timeUnitNs_done (s : IterState) : ((timeUnitNs s).2).done = s.done := by
  unfold timeUnitNs
  split
  · rfl
  · split <;> rfl

theorem readBytesLoop_done : ∀ (L : Nat) (s : IterState),
    ((readBytesLoop L s).2).done = s.done
  | 0, _ => rfl
  | L + 1, s => by
    simp only [readBytesLoop]
    exact (readBytesLoop_done L (readBits 8 s).2).trans (readBits_done 8 s)

theorem readAnnot_done (s : IterState) : (readAnnot s).done = s.done := by
  simp only [readAnnot]
  split
  · exact readVarint_done s
  · split
    · exact readVarint_done s
    · exact (readBytesLoop_done _ _).trans (readVarint_done s)

theorem readTimeUnit_done (s : IterState) : (readTimeUnit s).done = s.done := by
  simp only [readTimeUnit]
  split <;> exact readBits_done 8 s

theorem dodBuckets_done (db : Bucket) : ∀ (bs : List Bucket) (cb : Nat) (s : IterState),
    ((dodBuckets db bs cb s).2).done = s.done
  | [], _, s => by
    simp only [dodBuckets]
    exact ((timeUnitNs_done _).trans (readBits_done _ _))
  | b :: rest, cb, s => by
    simp only [dodBuckets]
    split
    · exact ((timeUnitNs_done _).trans (readBits_done _ _)).trans (readBits_done 1 s)
    · exact (dodBuckets_done db rest _ _).trans (readBits_done 1 s)

theorem readDeltaOfDelta_done (tes : TimeEncodingScheme) (s : IterState) :
    ((readDeltaOfDelta tes s).2).done = s.done := by
  simp only [readDeltaOfDelta]
  split
  · exact readBits_done 64 s
  · split
    · exact readBits_done 1 s
    · exact (dodBuckets_done _ _ _ _).trans (readBits_done 1 s)

theorem readXOR_done (s : IterState) : ((readXOR s).2).done = s.done := by
  simp only [readXOR]
  split
  · exact readBits_done 1 s
  · split
    · exact ((readBits_done _ _).trans (readBits_done 1 _)).trans (readBits_done 1 s)
    · exact (((readBits_done _ _).trans (readBits_done 6 _)).trans
        ((readBits_done 6 _).trans (readBits_done 1 _))).trans (readBits_done 1 s)

theorem readNextValue_done (s : IterState) : (readNextValue s).done = s.done := by
  simp only [readNextValue]
  exact readXOR_done s

theorem tryPeekBits_some {n : Nat} {s : IterState} {v : Nat}
    (h : tryPeekBits n s = some v) :
    hasNext s = true ∧ n ≤ s.bits.length := by
  unfold tryPeekBits istreamPeekBits at h
  by_cases hn : hasNext s = true
  · rw [if_pos hn] at h
    refine ⟨hn, ?_⟩
    by_cases hl : n ≤ s.bits.length
    · exact hl
    · rw [if_neg hl] at h
      exact absurd h (by simp)
  · rw [if_neg hn] at h
    exact absurd h (by simp)

theorem readXOR_of_done {s : IterState} (h : s.done = true) : readXOR s = (0, s) := by
  have hb := readBits_of_not_hasNext 1 (hasNext_false_of_done h)
  simp only [readXOR, hb, opcodeZeroValueXOR, if_pos rfl]
  simp

theorem readNextValue_of_done {s : IterState} (h : s.done = true) :
    readNextValue s = { s with xor := 0, vb := s.vb ^^^ 0 } := by
  simp only [readNextValue, readXOR_of_done h]

/-- The invariant behind clean termination: starting from a state with
`done` unset, a `readMarkerOrDeltaOfDelta` whose result has `done` set
has a nil error (only the EndOfStream branch sets `done`, and it does
so with a successful marker read). -/
theorem rmod_done_clean (o : Options) : ∀ (fuel : Nat) (s : IterState), s.done = false →
    ((readMarkerOrDeltaOfDelta o fuel s).2.done = true →
      (readMarkerOrDeltaOfDelta o fuel s).2.err = none)
  | 0, s, hd => by
    intro h
    exact absurd (hd ▸ h) (by simp)
  | fuel + 1, s, hd => by
    intro h
    rcases hf : (tryReadMarkerAux o (readMarkerOrDeltaOfDelta o fuel) s).1.2 with _ | _
    · have he := tryReadMarkerAux_false hf
      simp only [readMarkerOrDeltaOfDelta, he] at h ⊢
      rcases ht : o.tess s.tu with _ | tes
      · simp only [ht] at h ⊢
        exact absurd (hd ▸ h) (by simp)
      · simp only [ht] at h ⊢
        have := (readDeltaOfDelta_done tes s).trans hd
        simp at h
        exact absurd (this ▸ h) (by simp_all)
    · -- a marker was consumed
      simp only [readMarkerOrDeltaOfDelta, hf, if_true] at h ⊢
      revert h
      unfold tryReadMarkerAux at hf ⊢
      rcases hp : tryPeekBits (o.mes.numOpcodeBits + o.mes.numValueBits) s with _ | v
      · rw [hp] at hf
        simp at hf
      · rw [hp] at hf
        obtain ⟨hn, hlen⟩ := tryPeekBits_some hp
        replace hf : (tryReadMarkerVal o (readMarkerOrDeltaOfDelta o fuel) s v).1.2 = true := hf
        show (tryReadMarkerVal o (readMarkerOrDeltaOfDelta o fuel) s v).2.done = true →
          (tryReadMarkerVal o (readMarkerOrDeltaOfDelta o fuel) s v).2.err = none
        unfold tryReadMarkerVal at hf ⊢
        by_cases h1 : v >>> o.mes.numValueBits ≠ o.mes.opcode
        · rw [if_pos h1] at hf
          simp at hf
        · rw [if_neg h1] at hf ⊢
          by_cases h2 : v &&& (1 <<< o.mes.numValueBits - 1) = o.mes.endOfStream
          · rw [if_pos h2]
            intro _
            show ({ (readBits (o.mes.numOpcodeBits + o.mes.numValueBits) s).2 with done := true } : IterState).err = none
            rw [readBits_eq hn hlen]
          · rw [if_neg h2] at hf ⊢
            by_cases h3 : v &&& (1 <<< o.mes.numValueBits - 1) = o.mes.annMarker
            · rw [if_pos h3]
              intro h
              have hdp : (readAnnot (readBits (o.mes.numOpcodeBits + o.mes.numValueBits) s).2).done = false :=
                (readAnnot_done _).trans ((readBits_done _ s).trans hd)
              exact rmod_done_clean o fuel _ hdp h
            · rw [if_neg h3] at hf ⊢
              by_cases h4 : v &&& (1 <<< o.mes.numValueBits - 1) = o.mes.timeUnitMarker
              · rw [if_pos h4]
                intro h
                have hdp : (readTimeUnit (readBits (o.mes.numOpcodeBits + o.mes.numValueBits) s).2).done = false :=
                  (readTimeUnit_done _).trans ((readBits_done _ s).trans hd)
                exact rmod_done_clean o fuel _ hdp h
              · rw [if_neg h4] at hf
                simp at hf

theorem readNextTimestamp_done_clean (o : Options) (s : IterState) (hd : s.done = false)
    (h : (readNextTimestamp o s).done = true) : (readNextTimestamp o s).err = none := by
  have h1 : (readMarkerOrDeltaOfDelta o (s.bits.length + 1 + 1) s).2.done = true := h
  have h2 := rmod_done_clean o (s.bits.length + 1 + 1) s hd h1
  exact h2

theorem readFirstTimestamp_done_clean (o : Options) (s : IterState) (hd : s.done = false)
    (h : (readFirstTimestamp o s).done = true) : (readFirstTimestamp o s).err = none := by
  simp only [readFirstTimestamp] at h ⊢
  refine readNextTimestamp_done_clean o _ ?_ h
  exact (readBits_done 64 s).trans hd

theorem readFirstValue_done (s : IterState) : (readFirstValue s).done = s.done := by
  simp only [readFirstValue]
  exact readBits_done 64 s

theorem readFirstValue_of_done {s : IterState} (h : s.done = true) :
    readFirstValue s = { s with vb := 0, xor := 0 } := by
  simp only [readFirstValue, readBits_of_not_hasNext 64 (hasNext_false_of_done h)]

/-- On a live iterator, any `Next` call whose resulting state has
`done` set returned `false` and left `err` nil. -/
theorem next_done_clean (o : Options) (s : IterState) (hn : hasNext s = true)
    (h : (next o s).2.done = true) :
    (next o s).1 = false ∧ (next o s).2.err = none := by
  have hd0 : ({ s with ant := none, tuChanged := false } : IterState).done = false :=
    (hasNext_true_iff.mp hn).2.1
  have hbody : (nextBody o { s with ant := none, tuChanged := false }).done = true →
      (nextBody o { s with ant := none, tuChanged := false }).err = none := by
    intro hdone
    unfold nextBody at hdone ⊢
    by_cases hz : ({ s with ant := none, tuChanged := false } : IterState).t = timeZero
    · rw [if_pos hz] at hdone ⊢
      by_cases hAd : (readFirstTimestamp o { s with ant := none, tuChanged := false }).done = true
      · rw [readFirstValue_of_done hAd]
        exact readFirstTimestamp_done_clean o _ hd0 hAd
      · exfalso
        rw [readFirstValue_done] at hdone
        exact hAd hdone
    · rw [if_neg hz] at hdone ⊢
      by_cases hAd : (readNextTimestamp o { s with ant := none, tuChanged := false }).done = true
      · rw [readNextValue_of_done hAd]
        exact readNextTimestamp_done_clean o _ hd0 hAd
      · exfalso
        rw [readNextValue_done] at hdone
        exact hAd hdone
  by_cases htc : (nextBody o { s with ant := none, tuChanged := false }).tuChanged = true
  · have hnext : next o s = (hasNext { nextBody o { s with ant := none, tuChanged := false } with dt := 0 }, { nextBody o { s with ant := none, tuChanged := false } with dt := 0 }) := by
      simp only [next, hn, if_true, htc]
    rw [hnext] at h ⊢
    have hdone : (nextBody o { s with ant := none, tuChanged := false }).done = true := h
    exact ⟨hasNext_false_of_done hdone, hbody hdone⟩
  · rw [Bool.not_eq_true] at htc
    have hnext : next o s = (hasNext (nextBody o { s with ant := none, tuChanged := false }), nextBody o { s with ant := none, tuChanged := false }) := by
      simp only [next, hn, if_true, htc, Bool.false_eq_true, if_false]
    rw [hnext] at h ⊢
    exact ⟨hasNext_false_of_done h, hbody h⟩

/-- C5: whenever a `Next` call on a live iterator consumes the
EndOfStream marker (i.e. its resulting state has `done` set — only the
EndOfStream branch sets `done`), that call returns `false` and leaves
`err` nil (clean termination), and every subsequent `Next` call also
returns `false` with the state unchanged; in particular a stream whose
next bits are the EndOfStream marker produces exactly this `done`
state. -/
theorem tsz_c5_eos_clean_termination :
    (∀ (o : Options) (s : IterState), hasNext s = true → (next o s).2.done = true →
      (next o s).1 = false ∧ (next o s).2.err = none ∧
      (∀ n : Nat, nextN o n (next o s).2 = (next o s).2) ∧
      (∀ n : Nat, (next o (nextN o n (next o s).2)).1 = false)) ∧
    (∀ (o : Options) (s : IterState), hasNext s = true → ¬ s.t = timeZero →
      o.mes.numOpcodeBits + o.mes.numValueBits ≤ s.bits.length →
      bitsToNat (s.bits.take (o.mes.numOpcodeBits + o.mes.numValueBits)) >>> o.mes.numValueBits
        = o.mes.opcode →
      bitsToNat (s.bits.take (o.mes.numOpcodeBits + o.mes.numValueBits)) &&& (1 <<< o.mes.numValueBits - 1)
        = o.mes.endOfStream →
      (next o s).2.done = true) := by
  constructor
  · intro o s hn h
    obtain ⟨h1, h2⟩ := next_done_clean o s hn h
    have hf : hasNext (next o s).2 = false := hasNext_false_of_done h
    refine ⟨h1, h2, fun n => nextN_of_not_hasNext n hf, fun n => ?_⟩
    rw [nextN_of_not_hasNext n hf, next_of_not_hasNext hf]
  · intro o s hn ht hlen hop heos
    rw [next_eos hn ht hlen hop heos]

/-- C5 witness: the concrete EndOfStream marker `11100` under `mesW`. -/
theorem tsz_c5_witness :
    (next optsW (stateW (natToBits 5 28))).1 = false ∧
    (next optsW (stateW (natToBits 5 28))).2.err = none ∧
    (next optsW (stateW (natToBits 5 28))).2.done = true := by
  have h := tsz_c5_eos_clean_termination.1 optsW (stateW (natToBits 5 28))
    (by decide) (by decide)
  have h2 := tsz_c5_eos_clean_termination.2 optsW (stateW (natToBits 5 28))
    (by decide) (by decide) (by decide) (by decide) (by decide)
  exact ⟨h.1, h.2.1, h2⟩

/-- C10: on the `Next` call that consumes the EndOfStream marker, the
iterator still adds the current delta `dt` to the timestamp `t` before
returning `false` (the marker reports a dod of 0 and
`readNextTimestamp` applies `t += dt`), while the value bits `vb` are
left unchanged and only the marker bits are consumed from the stream
(every bit-read after the terminal transition short-circuits to 0
without touching the stream). -/
theorem tsz_c10_eos_still_advances_t :
    ∀ (o : Options) (s : IterState), hasNext s = true → ¬ s.t = timeZero →
      -(2 ^ 63) ≤ s.dt → s.dt < 2 ^ 63 →
      o.mes.numOpcodeBits + o.mes.numValueBits ≤ s.bits.length →
      bitsToNat (s.bits.take (o.mes.numOpcodeBits + o.mes.numValueBits)) >>> o.mes.numValueBits
        = o.mes.opcode →
      bitsToNat (s.bits.take (o.mes.numOpcodeBits + o.mes.numValueBits)) &&& (1 <<< o.mes.numValueBits - 1)
        = o.mes.endOfStream →
      (next o s).1 = false ∧
      (next o s).2.t = s.t + s.dt ∧
      (next o s).2.vb = s.vb ∧
      (next o s).2.dt = s.dt ∧
      (next o s).2.bits = s.bits.drop (o.mes.numOpcodeBits + o.mes.numValueBits) := by
  intro o s hn ht hlo hhi hlen hop heos
  rw [next_eos hn ht hlen hop heos, i64_of_range hlo hhi]
  exact ⟨rfl, rfl, rfl, rfl, rfl⟩

/-- C10 witness: on the concrete EOS stream, `t` advances by the
stored `dt` of one second and `vb` is untouched. -/
theorem tsz_c10_witness :
    (next optsW (stateW (natToBits 5 28))).2.t = 6000000000 ∧
    (next optsW (stateW (natToBits 5 28))).2.vb = 4611686018427387904 := by
  have h := tsz_c10_eos_still_advances_t optsW (stateW (natToBits 5 28))
    (by decide) (by decide) (by decide) (by decide) (by decide) (by decide) (by decide)
  exact ⟨h.2.1, h.2.2.1⟩

/-! ## Reset equivalence

`Reset` restores every field the constructor zeroes except
`tuChanged`, which the Go code leaves untouched; but `Next` clears
`tuChanged` on every live call and no observation reads it, so a reset
iterator is observationally identical to a fresh one.  The relation
"equal except possibly `tuChanged`" is a bisimulation for `next`. -/

theorem next_congr {o : Options} {s1 s2 : IterState}
    (h : ({ s1 with tuChanged := false } : IterState) = { s2 with tuChanged := false }) :
    (next o s1).1 = (next o s2).1 ∧
    ({ (next o s1).2 with tuChanged := false } : IterState) = { (next o s2).2 with tuChanged := false } := by
  have hh : hasNext s1 = hasNext s2 := by
    have h1 : hasNext { s1 with tuChanged := false } = hasNext { s2 with tuChanged := false } := by
      rw [h]
    exact h1
  have hinner : ({ s1 with ant := none, tuChanged := false } : IterState) =
      { s2 with ant := none, tuChanged := false } :=
    congrArg (fun st => ({ st with ant := none } : IterState)) h
  cases hhn : hasNext s1 with
  | false =>
    rw [next_of_not_hasNext hhn, next_of_not_hasNext (hh ▸ hhn)]
    exact ⟨rfl, h⟩
  | true =>
    have hhn2 : hasNext s2 = true := hh ▸ hhn
    have he : next o s1 = next o s2 := by
      simp only [next, hhn, hhn2, if_true, hinner]
    rw [he]
    exact ⟨rfl, rfl⟩

theorem runObs_congr (o : Options) : ∀ (n : Nat) (s1 s2 : IterState),
    ({ s1 with tuChanged := false } : IterState) = { s2 with tuChanged := false } →
    runObs o n s1 = runObs o n s2
  | 0, _, _, _ => rfl
  | n + 1, s1, s2, h => by
    obtain ⟨h1, h2⟩ := next_congr (o := o) h
    have ht0 := congrArg IterState.t h2
    have hvb0 := congrArg IterState.vb h2
    have htu0 := congrArg IterState.tu h2
    have hant0 := congrArg IterState.ant h2
    have herr0 := congrArg IterState.err h2
    have ht : (next o s1).2.t = (next o s2).2.t := ht0
    have hvb : (next o s1).2.vb = (next o s2).2.vb := hvb0
    have htu : (next o s1).2.tu = (next o s2).2.tu := htu0
    have hant : (next o s1).2.ant = (next o s2).2.ant := hant0
    have herr : (next o s1).2.err = (next o s2).2.err := herr0
    have htl := runObs_congr o n (next o s1).2 (next o s2).2 h2
    simp only [runObs, current, errOf, h1, ht, hvb, htu, hant, herr, htl]

/-- C9: `reset(r)` restores every observable field (`t`, `dt`, `vb`,
`xor`, `done`, `err`, `ant`, `tu`, `closed`) to its freshly-constructed
value — the only field it does not touch is the unobservable
`tuChanged`, which every live `Next` clears on entry — and decoding
after `reset(r)` produces exactly the same sequence of `Next` results,
`Current` tuples and `Err` values as a freshly constructed iterator on
the same stream with the same options. -/
theorem tsz_c9_reset_equals_fresh :
    ∀ (s : IterState) (bits : List Bool) (o : Options) (n : Nat),
      reset s bits = { newReaderIterator bits with tuChanged := s.tuChanged } ∧
      runObs o n (reset s bits) = runObs o n (newReaderIterator bits) := by
  intro s bits o n
  refine ⟨rfl, runObs_congr o n _ _ rfl⟩

end Tsz
